import Mathlib

/-!
# Verification of the Space Olympics competition-management core

Shallow embedding of the slot-status engine, aggregation views, ranking,
score validation and role-scoping logic of the repository, together with
theorems settling the spec's claims about them.

Times are modelled as integers (epoch milliseconds); JavaScript `Date`
comparisons in the source compare exactly these values.  JavaScript `Map`s
built by insertion are modelled as association lists that preserve
insertion order, matching `Map`'s iteration-order guarantee.  The
JavaScript `Array.prototype.sort` is stable (ES2019), so it is modelled by
`List.mergeSort`, which is stable as well.
-/

namespace Orbit

/-! ## Data model (shared/schema) -/

/-- A rubric criterion of a station: `{ name, maxPoints, note? }`. -/
structure Criterion where
  name : String
  maxPoints : Int
  deriving Repr, DecidableEq

/-- A judging station with its rubric criteria. -/
structure Station where
  id : Nat
  eventId : Nat
  name : String
  criteria : List Criterion
  deriving Repr, DecidableEq

/-- A competing team. -/
structure Team where
  id : Nat
  eventId : Nat
  name : String
  category : String
  deriving Repr, DecidableEq

/-- A schedule slot.  `judgeIds` is nullable in the database; `[]` models
`null`.  `status` is the stored advisory label (free text). -/
structure ScheduleSlot where
  id : Nat
  eventId : Nat
  stationId : Nat
  teamId : Nat
  startTime : Int
  endTime : Int
  judgeIds : List Nat
  status : String
  deriving Repr, DecidableEq

/-- A submitted score: per-criterion points for one team at one station in
one slot, by one judge.  `scores` is the criterion-name → points map. -/
structure Score where
  id : Nat
  slotId : Nat
  teamId : Nat
  stationId : Nat
  judgeId : Nat
  scores : List (String × Int)
  deriving Repr, DecidableEq

/-- An application user (`role` is "admin", "manager" or "judge"). -/
structure User where
  id : Nat
  role : String
  name : String
  deriving Repr, DecidableEq

/-- An event with its managing user and assigned judges. -/
structure Event where
  id : Nat
  name : String
  managerId : Nat
  judgeIds : List Nat
  deriving Repr, DecidableEq

/-! ## Slot status engine (`getSlotStatus`, scoring-matrix component) -/

/-- The four display statuses of `getSlotStatus`. -/
inductive StatusType where
  | pending
  | ongoing
  | behind
  | complete
  deriving Repr, DecidableEq

/-- `scores.some(s => s.slotId === slot.id)` — whether any score exists
for the slot (by any judge). -/
def hasScoreFor (scores : List Score) (slot : ScheduleSlot) : Bool :=
  scores.any fun s => s.slotId == slot.id

/-- `getSlotStatus(slot, scores)`: complete if any score exists for the
slot; else pending before the window, ongoing inside it, behind after. -/
def getSlotStatus (slot : ScheduleSlot) (scores : List Score) (now : Int) :
    StatusType :=
  if hasScoreFor scores slot then .complete
  else if now < slot.startTime then .pending
  else if slot.startTime ≤ now && now < slot.endTime then .ongoing
  else .behind

/-- C1: score existence wins; with no score the three time cases partition
the timeline of a well-formed window. -/
theorem getSlotStatus_cases (slot : ScheduleSlot) (scores : List Score)
    (now : Int) (hw : slot.startTime ≤ slot.endTime) :
    (getSlotStatus slot scores now = .complete ↔ hasScoreFor scores slot = true) ∧
    (getSlotStatus slot scores now = .pending ↔
      hasScoreFor scores slot = false ∧ now < slot.startTime) ∧
    (getSlotStatus slot scores now = .ongoing ↔
      hasScoreFor scores slot = false ∧ slot.startTime ≤ now ∧ now < slot.endTime) ∧
    (getSlotStatus slot scores now = .behind ↔
      hasScoreFor scores slot = false ∧ slot.endTime ≤ now) := by
  unfold getSlotStatus
  by_cases hs : hasScoreFor scores slot
  · simp [hs]
  · simp only [hs, Bool.false_eq_true, if_false, Bool.and_eq_true, decide_eq_true_eq]
    split_ifs with h1 h2 <;>
      simp only [reduceCtorEq, false_iff, true_iff, iff_true, iff_false,
        not_and, not_lt, true_and, and_true, not_true, not_false_iff] <;>
      constructor <;> simp_all <;> omega

/-- Witness for C1 at a concrete slot with no score, inside its window. -/
theorem getSlotStatus_cases_witness :
    ({ id := 1, eventId := 1, stationId := 1, teamId := 1, startTime := 10,
       endTime := 20, judgeIds := [7], status := "pending" } : ScheduleSlot).startTime ≤
      ({ id := 1, eventId := 1, stationId := 1, teamId := 1, startTime := 10,
         endTime := 20, judgeIds := [7], status := "pending" } : ScheduleSlot).endTime ∧
    (getSlotStatus
        { id := 1, eventId := 1, stationId := 1, teamId := 1, startTime := 10,
          endTime := 20, judgeIds := [7], status := "pending" } [] 15 = .complete ↔
      hasScoreFor []
        { id := 1, eventId := 1, stationId := 1, teamId := 1, startTime := 10,
          endTime := 20, judgeIds := [7], status := "pending" } = true) := by
  refine ⟨by decide, ?_⟩
  exact (getSlotStatus_cases
    { id := 1, eventId := 1, stationId := 1, teamId := 1, startTime := 10,
      endTime := 20, judgeIds := [7], status := "pending" } [] 15 (by decide)).1

/-! ## Slot-level aggregate status (`slotDetails` in the slot-progress page) -/

/-- The aggregate per-slot scoring status of the slot-progress view
(`"complete" | "partial" | "pending" | "no_judges"`). -/
inductive ScoringStatus where
  | complete
  | partialScored
  | pending
  | noJudges
  deriving Repr, DecidableEq

/-- `(slot.judgeIds || []).map(getJudgeById).filter(Boolean)` — the slot's
judge ids resolved against the judges list, dropping unresolved ids. -/
def assignedJudges (slot : ScheduleSlot) (allJudges : List User) : List User :=
  slot.judgeIds.filterMap fun jId => allJudges.find? fun j => j.id == jId

/-- `scores.filter(s => s.slotId === slot.id)`. -/
def slotScores (scores : List Score) (slot : ScheduleSlot) : List Score :=
  scores.filter fun s => s.slotId == slot.id

/-- Whether some score for the slot was submitted by judge `jId`. -/
def judgeHasScored (scores : List Score) (slot : ScheduleSlot) (jId : Nat) : Bool :=
  (slotScores scores slot).any fun s => s.judgeId == jId

/-- `slotDetails`' per-slot `scoringStatus` computation. -/
def scoringStatus (slot : ScheduleSlot) (allJudges : List User)
    (scores : List Score) : ScoringStatus :=
  let assigned := assignedJudges slot allJudges
  let ss := slotScores scores slot
  let judgesScored := assigned.filter fun j => ss.any fun s => s.judgeId == j.id
  let judgesNotScored := assigned.filter fun j => !(ss.any fun s => s.judgeId == j.id)
  let hasJudges := !assigned.isEmpty
  let allScored := hasJudges && judgesNotScored.isEmpty
  let someScored := !judgesScored.isEmpty && !judgesNotScored.isEmpty
  if !hasJudges then .noJudges
  else if allScored then .complete
  else if someScored then .partialScored
  else .pending

/-- A filtered list is empty exactly when no element satisfies the
predicate. -/
theorem filter_isEmpty_eq_not_any {α : Type} (p : α → Bool) (l : List α) :
    (l.filter p).isEmpty = !(l.any p) := by
  induction l with
  | nil => rfl
  | cons a l ih => by_cases h : p a <;> simp [List.filter_cons, h, ih]

/-- Over a list where every id resolves, `any` over the resolved judges
agrees with `any` over the raw id list, for predicates on the id. -/
theorem assignedJudges_any (ids : List Nat) (js : List User) (q : Nat → Bool)
    (h : ∀ jId ∈ ids, ((js.find? fun j => j.id == jId)).isSome) :
    ((ids.filterMap fun jId => js.find? fun j => j.id == jId).any
      fun j => q j.id) = ids.any q := by
  induction ids with
  | nil => rfl
  | cons a ids ih =>
    have ha : ((js.find? fun j => j.id == a)).isSome := h a (List.mem_cons_self a ids)
    obtain ⟨j, hj⟩ := Option.isSome_iff_exists.mp ha
    have hid : j.id = a := by
      have := List.find?_some hj
      simpa using this
    rw [List.filterMap_cons]
    simp only [hj, List.any_cons, hid,
      ih fun x hx => h x (List.mem_cons_of_mem a hx)]

/-- Same resolution fact for emptiness. -/
theorem assignedJudges_isEmpty (ids : List Nat) (js : List User)
    (h : ∀ jId ∈ ids, ((js.find? fun j => j.id == jId)).isSome) :
    (ids.filterMap fun jId => js.find? fun j => j.id == jId).isEmpty =
      ids.isEmpty := by
  cases ids with
  | nil => rfl
  | cons a ids =>
    have ha : ((js.find? fun j => j.id == a)).isSome := h a (List.mem_cons_self a ids)
    obtain ⟨j, hj⟩ := Option.isSome_iff_exists.mp ha
    rw [List.filterMap_cons]
    simp [hj]

/-- `any` of a negated predicate is the negation of `all`. -/
theorem any_not_eq_not_all {α : Type} (p : α → Bool) (l : List α) :
    (l.any fun x => !(p x)) = !(l.all p) := by
  induction l with
  | nil => rfl
  | cons a l ih => by_cases h : p a <;> simp [h, ih]

/-- C2: with every assigned judge id resolving to a judge record, the
aggregate status is `no_judges` iff the assigned list is empty, else
`complete`/`partial`/`pending` according to how many assigned judges have
a score for the slot. -/
theorem scoringStatus_cases (slot : ScheduleSlot) (allJudges : List User)
    (scores : List Score)
    (hres : ∀ jId ∈ slot.judgeIds, ((allJudges.find? fun j => j.id == jId)).isSome) :
    (scoringStatus slot allJudges scores = .noJudges ↔ slot.judgeIds = []) ∧
    (scoringStatus slot allJudges scores = .complete ↔
      slot.judgeIds ≠ [] ∧ slot.judgeIds.all (judgeHasScored scores slot) = true) ∧
    (scoringStatus slot allJudges scores = .partialScored ↔
      slot.judgeIds.any (judgeHasScored scores slot) = true ∧
      slot.judgeIds.all (judgeHasScored scores slot) = false) ∧
    (scoringStatus slot allJudges scores = .pending ↔
      slot.judgeIds ≠ [] ∧ slot.judgeIds.any (judgeHasScored scores slot) = false) := by
  unfold scoringStatus assignedJudges
  have h1 := assignedJudges_isEmpty slot.judgeIds allJudges hres
  have h2 := assignedJudges_any slot.judgeIds allJudges
    (judgeHasScored scores slot) hres
  have h3 := assignedJudges_any slot.judgeIds allJudges
    (fun x => !(judgeHasScored scores slot x)) hres
  simp only [filter_isEmpty_eq_not_any]
  rw [h1]
  have hsc : (fun (j : User) => (slotScores scores slot).any
      fun s => s.judgeId == j.id) = fun j => judgeHasScored scores slot j.id := rfl
  rw [hsc]
  have hsc' : (fun (j : User) => !((slotScores scores slot).any
      fun s => s.judgeId == j.id)) = fun j => !(judgeHasScored scores slot j.id) := rfl
  rw [hsc']
  rw [h2, h3, any_not_eq_not_all]
  rcases hids : slot.judgeIds with _ | ⟨a, ids⟩
  · simp
  · rw [← hids]
    have hne : slot.judgeIds.isEmpty = false := by rw [hids]; rfl
    have hne' : slot.judgeIds ≠ [] := by rw [hids]; simp
    rcases hall : slot.judgeIds.all (judgeHasScored scores slot)
    · rcases hany : slot.judgeIds.any (judgeHasScored scores slot)
      · have : slot.judgeIds.all (judgeHasScored scores slot) = false := hall
        simp [hne, hne', hall, hany]
      · simp [hne, hne', hall, hany]
    · have hany : slot.judgeIds.any (judgeHasScored scores slot) = true := by
        rw [hids] at hall ⊢
        simp only [List.all_cons, Bool.and_eq_true] at hall
        simp [hall.1]
      simp [hne, hne', hall, hany]

/-- Sample slot with judges 1 and 2 assigned. -/
def slotJ12 : ScheduleSlot :=
  { id := 100, eventId := 1, stationId := 10, teamId := 20, startTime := 0,
    endTime := 60, judgeIds := [1, 2], status := "pending" }

/-- Sample judge users 1 and 2. -/
def judgesJ12 : List User := [⟨1, "judge", "J1"⟩, ⟨2, "judge", "J2"⟩]

/-- Sample score submitted by judge 1 for `slotJ12`. -/
def scoreByJ1 : Score := ⟨500, 100, 20, 10, 1, [("Speed", 7)]⟩

/-- Witness for C2: judges {1, 2} assigned, only judge 1 has scored, so
the aggregate status is partial. -/
theorem scoringStatus_cases_witness :
    (∀ jId ∈ slotJ12.judgeIds, ((judgesJ12.find? fun j => j.id == jId)).isSome) ∧
    (scoringStatus slotJ12 judgesJ12 [scoreByJ1] = .partialScored ↔
      slotJ12.judgeIds.any (judgeHasScored [scoreByJ1] slotJ12) = true ∧
      slotJ12.judgeIds.all (judgeHasScored [scoreByJ1] slotJ12) = false) := by
  refine ⟨by decide, ?_⟩
  exact (scoringStatus_cases slotJ12 judgesJ12 [scoreByJ1] (by decide)).2.2.1

/-! ## Judge view of the scoring matrix (`JudgeView`) -/

/-- The slot shown in judge `judgeId`'s cell for (team, station):
`slots.find(s => s.teamId === team.id && s.stationId === stationId &&
s.judgeIds?.includes(judge.id))`. -/
def judgeViewSlot (slots : List ScheduleSlot) (teamId stationId judgeId : Nat) :
    Option ScheduleSlot :=
  slots.find? fun s =>
    s.teamId == teamId && s.stationId == stationId && s.judgeIds.contains judgeId

/-- The status displayed in judge `judgeId`'s cell: `getSlotStatus(slot,
scores)` when a matching slot exists, the dashed no-slot marker (`none`)
otherwise. -/
def judgeViewCell (slots : List ScheduleSlot) (scores : List Score) (now : Int)
    (teamId stationId judgeId : Nat) : Option StatusType :=
  (judgeViewSlot slots teamId stationId judgeId).map fun slot =>
    getSlotStatus slot scores now

/-- `getSlotStatus` is complete exactly when any score for the slot
exists, regardless of the submitting judge and of the time. -/
theorem getSlotStatus_complete_iff (slot : ScheduleSlot) (scores : List Score)
    (now : Int) :
    getSlotStatus slot scores now = .complete ↔ hasScoreFor scores slot = true := by
  unfold getSlotStatus
  by_cases hs : hasScoreFor scores slot
  · simp [hs]
  · simp only [hs, Bool.false_eq_true, if_false]
    split_ifs <;> simp_all

/-- Sample score submitted by judge 2 for `slotJ12`. -/
def scoreByJ2 : Score := ⟨501, 100, 20, 10, 2, [("Speed", 5)]⟩

/-- C3 counterexample: judge 1's cell for (team 20, station 10) reports
complete although the only score for the slot was submitted by judge 2. -/
theorem judgeViewCell_other_judge :
    judgeViewCell [slotJ12] [scoreByJ2] 30 20 10 1 = some .complete ∧
    ([scoreByJ2].any fun s => s.slotId == slotJ12.id && s.judgeId == 1) = false := by
  decide

/-- C3 amended: a judge's cell is complete exactly when any score exists
for the matching slot, whichever judge submitted it. -/
theorem judgeViewCell_complete_iff (slots : List ScheduleSlot)
    (scores : List Score) (now : Int) (teamId stationId judgeId : Nat)
    (slot : ScheduleSlot)
    (h : judgeViewSlot slots teamId stationId judgeId = some slot) :
    (judgeViewCell slots scores now teamId stationId judgeId = some .complete ↔
      hasScoreFor scores slot = true) := by
  unfold judgeViewCell
  rw [h]
  simp only [Option.map_some', Option.some.injEq]
  exact getSlotStatus_complete_iff slot scores now

/-- Witness for the amended C3 at judge 1's cell of `slotJ12`. -/
theorem judgeViewCell_complete_iff_witness :
    judgeViewSlot [slotJ12] 20 10 1 = some slotJ12 ∧
    (judgeViewCell [slotJ12] [scoreByJ1] 30 20 10 1 = some .complete ↔
      hasScoreFor [scoreByJ1] slotJ12 = true) := by
  refine ⟨by decide, ?_⟩
  exact judgeViewCell_complete_iff [slotJ12] [scoreByJ1] 30 20 10 1 slotJ12 (by decide)

/-! ## Team tracking and overall stats (stored status label usage) -/

/-- Cell status of the manager team-tracking view (`teamStats`). -/
inductive TeamCellStatus where
  | complete
  | pending
  | behind
  | noSlot
  deriving Repr, DecidableEq

/-- `teamStats`' per-(team, station) classification: complete when a
score with this team and station exists, otherwise behind or pending as
read from the stored `slot.status` label. -/
def teamStationStatus (team : Team) (station : Station)
    (slots : List ScheduleSlot) (scores : List Score) : TeamCellStatus :=
  match (slots.filter fun s => s.teamId == team.id).find?
      (fun s => s.stationId == station.id) with
  | none => .noSlot
  | some slot =>
    if scores.any fun s => s.teamId == team.id && s.stationId == station.id then
      .complete
    else if slot.status == "behind" then .behind
    else .pending

/-- Slot ordering used by the slot-progress view: ascending start time
(`sort((a, b) => a.startTime - b.startTime)`). -/
def slotLE (a b : ScheduleSlot) : Prop := a.startTime ≤ b.startTime

instance : DecidableRel slotLE := fun a b => Int.decLe a.startTime b.startTime

/-- `overallStats.behind`: slots are mapped to details, stably sorted by
start time, and the entries whose stored `slot.status` is `"behind"`
counted.  JavaScript's `sort` is stable, and a stable sort's output is
determined by the comparator, so `insertionSort` models it exactly. -/
def overallBehind (slots : List ScheduleSlot) : Nat :=
  ((slots.insertionSort slotLE).filter fun s => s.status == "behind").length

/-- Sample team and station matching `slotJ12`. -/
def teamT : Team := ⟨20, 1, "Curiosity Rovers", "MiddleSchool"⟩

/-- Sample station matching `slotJ12`, with one rubric criterion. -/
def stationS : Station := ⟨10, 1, "Rover Navigation", [⟨"Speed", 10⟩]⟩

/-- C4 counterexample: two states identical except for the stored status
label of the one slot (no scores either way) display differently in the
team-tracking view and in the overall behind count. -/
theorem storedStatus_dependence :
    teamStationStatus teamT stationS [slotJ12] [] = .pending ∧
    teamStationStatus teamT stationS [{ slotJ12 with status := "behind" }] [] =
      .behind ∧
    overallBehind [slotJ12] = 0 ∧
    overallBehind [{ slotJ12 with status := "behind" }] = 1 := by
  decide

/-- C4 amended: `getSlotStatus` (hence every scoring-matrix cell) ignores
the stored status label, but the team-tracking view classifies an
unscored slot straight from the stored label, and the overall behind
count is exactly the number of slots whose stored label is "behind". -/
theorem storedStatus_scope (slot : ScheduleSlot) (scores : List Score)
    (now : Int) (label : String) (team : Team) (station : Station)
    (slots : List ScheduleSlot) (slot' : ScheduleSlot)
    (hfind : ((slots.filter fun s => s.teamId == team.id).find?
      fun s => s.stationId == station.id) = some slot')
    (hnoscore : (scores.any fun s =>
      s.teamId == team.id && s.stationId == station.id) = false) :
    getSlotStatus { slot with status := label } scores now =
      getSlotStatus slot scores now ∧
    teamStationStatus team station slots scores =
      (if slot'.status == "behind" then .behind else .pending) ∧
    overallBehind slots = (slots.filter fun s => s.status == "behind").length := by
  refine ⟨rfl, ?_, ?_⟩
  · unfold teamStationStatus
    rw [hfind]
    simp [hnoscore]
  · unfold overallBehind
    exact ((List.perm_insertionSort slotLE slots).filter _).length_eq

/-- Witness for the amended C4 at `slotJ12` with no scores. -/
theorem storedStatus_scope_witness :
    ((([slotJ12].filter fun s => s.teamId == teamT.id).find?
      fun s => s.stationId == stationS.id) = some slotJ12) ∧
    (([] : List Score).any fun s =>
      s.teamId == teamT.id && s.stationId == stationS.id) = false ∧
    teamStationStatus teamT stationS [slotJ12] [] =
      (if slotJ12.status == "behind" then .behind else .pending) := by
  refine ⟨by decide, by decide, ?_⟩
  exact (storedStatus_scope slotJ12 [] 0 "x" teamT stationS [slotJ12] slotJ12
    (by decide) (by decide)).2.1

/-! ## Leaderboard / results ranking (results page and CSV export route)

JavaScript `Map`s are modelled as insertion-ordered association lists
(`Map` iterates in insertion order), and `Array.prototype.sort` — stable
since ES2019, and with output uniquely determined by the comparator plus
stability — by `List.insertionSort`, which is sorted and stable for the
same total preorder. -/

/-- Sum of a score's criterion values
(`Object.values(score.scores).reduce((sum, val) => sum + val, 0)`). -/
def scoreTotal (s : Score) : Int := (s.scores.map Prod.snd).sum

/-- `map.set(k, (map.get(k) || 0) + v)` on the association list. -/
def mapAdd : List (Nat × Int) → Nat → Int → List (Nat × Int)
  | [], k, v => [(k, v)]
  | (k', v') :: rest, k, v =>
    if k' == k then (k', v' + v) :: rest else (k', v') :: mapAdd rest k v

/-- `map.get(k) || 0`. -/
def mapGetD : List (Nat × Int) → Nat → Int
  | [], _ => 0
  | e :: rest, k => if e.1 == k then e.2 else mapGetD rest k

/-- The `teamScores` map: each score's total added to its team's entry. -/
def teamScoresMap (scores : List Score) : List (Nat × Int) :=
  scores.foldl (fun m s => mapAdd m s.teamId (scoreTotal s)) []

/-- A team's total as the spec states it: the sum, over the team's Score
records, of that record's criterion-value sum. -/
def teamTotal (scores : List Score) (teamId : Nat) : Int :=
  ((scores.filter fun s => s.teamId == teamId).map scoreTotal).sum

/-- Looking up after `mapAdd` adds the increment to the key's entry. -/
theorem mapGetD_mapAdd (m : List (Nat × Int)) (k' k : Nat) (v : Int) :
    mapGetD (mapAdd m k' v) k = mapGetD m k + (if k' == k then v else 0) := by
  induction m with
  | nil =>
    by_cases h : k' == k <;> simp [mapAdd, mapGetD, h]
  | cons a rest ih =>
    by_cases h1 : a.1 == k'
    · have h1' : a.1 = k' := by simpa using h1
      by_cases h2 : a.1 == k
      · have h2' : a.1 = k := by simpa using h2
        have hk : k' == k := by simp [← h1', h2']
        simp [mapAdd, h1, mapGetD, h2, hk]
      · have hk : ¬(k' == k) = true := by
          simp only [beq_iff_eq]
          intro h
          exact h2 (by simp [h1', h])
        simp [mapAdd, h1, mapGetD, h2, hk]
    · by_cases h2 : a.1 == k
      · have h2' : a.1 = k := by simpa using h2
        have hk : ¬(k' == k) = true := by
          simp only [beq_iff_eq]
          intro h
          exact h1 (by simp [h2', h])
        simp [mapAdd, h1, mapGetD, h2, hk]
      · simp [mapAdd, h1, mapGetD, h2, ih]

/-- Fold invariant: the `teamScores` accumulation computes, per key, the
sum of the totals of that team's scores. -/
theorem teamScoresMap_go (scores : List Score) (m : List (Nat × Int)) (k : Nat) :
    mapGetD (scores.foldl (fun m s => mapAdd m s.teamId (scoreTotal s)) m) k =
      mapGetD m k + teamTotal scores k := by
  induction scores generalizing m with
  | nil => simp [teamTotal]
  | cons s ss ih =>
    rw [List.foldl_cons, ih, mapGetD_mapAdd]
    by_cases h : s.teamId == k <;>
      simp [teamTotal, List.filter_cons, h] <;> ring

/-- The `teamScores` map realises the spec's per-team total. -/
theorem mapGetD_teamScoresMap (scores : List Score) (k : Nat) :
    mapGetD (teamScoresMap scores) k = teamTotal scores k := by
  simpa [mapGetD] using teamScoresMap_go scores [] k

/-- The ranking comparator `(a, b) => b.calculatedScore -
a.calculatedScore`: `a` may precede `b` when `a`'s total is at least
`b`'s. -/
def rankLE (a b : Team × Int) : Prop := b.2 ≤ a.2

instance : DecidableRel rankLE := fun a b => Int.decLe b.2 a.2

instance : IsTotal (Team × Int) rankLE := ⟨fun a b => le_total b.2 a.2⟩

instance : IsTrans (Team × Int) rankLE := ⟨fun _ _ _ h1 h2 => le_trans h2 h1⟩

/-- The results page's `rankedTeams`: filter by category, attach each
team's total, stable-sort descending by total. -/
def rankedTeams (teams : List Team) (scores : List Score)
    (categoryFilter : String) : List (Team × Int) :=
  ((teams.filter fun t =>
      categoryFilter == "all" || t.category == categoryFilter).map
    fun t => (t, mapGetD (teamScoresMap scores) t.id)).insertionSort rankLE

/-- The CSV results-export rows: all teams with totals, stable-sorted
descending, rank written as index + 1. -/
def exportResultRows (teams : List Team) (scores : List Score) :
    List (Nat × Team × Int) :=
  (((teams.map fun t => (t, mapGetD (teamScoresMap scores) t.id)).insertionSort
      rankLE).enum).map fun p => (p.1 + 1, p.2)

/-- Stability of the ranking sort: entries with any fixed total keep
their input order. -/
theorem insertionSort_filter_total (l : List (Team × Int)) (v : Int) :
    ((l.insertionSort rankLE).filter fun p => p.2 == v) =
      l.filter fun p => p.2 == v := by
  have hall : ∀ p ∈ l.filter (fun p : Team × Int => p.2 == v), p.2 = v := by
    intro p hp
    simpa using (List.mem_filter.mp hp).2
  have hpair : (l.filter fun p : Team × Int => p.2 == v).Pairwise rankLE :=
    List.pairwise_of_forall_mem_list fun a ha b hb => by
      unfold rankLE
      rw [hall a ha, hall b hb]
  have hkey : List.Sublist (l.filter fun p : Team × Int => p.2 == v)
      (l.insertionSort rankLE) :=
    List.sublist_insertionSort hpair (List.filter_sublist l)
  have hself : (l.filter fun p : Team × Int => p.2 == v).filter
      (fun p => p.2 == v) = l.filter fun p : Team × Int => p.2 == v :=
    List.filter_eq_self.mpr fun a ha => (List.mem_filter.mp ha).2
  have hsub2 : List.Sublist (l.filter fun p : Team × Int => p.2 == v)
      ((l.insertionSort rankLE).filter fun p => p.2 == v) := by
    have h := hkey.filter fun p : Team × Int => p.2 == v
    rwa [hself] at h
  have hperm := (List.perm_insertionSort rankLE l).filter
    fun p : Team × Int => p.2 == v
  exact (hsub2.eq_of_length hperm.length_eq.symm).symm

/-- C5: ranking totals are the claimed per-team sums; a strictly lower
total appears strictly after every higher one; equal totals keep their
prior relative order; export ranks are 1-based and positional. -/
theorem rankedTeams_spec (teams : List Team) (scores : List Score)
    (categoryFilter : String) :
    (∀ p ∈ rankedTeams teams scores categoryFilter,
      p.2 = teamTotal scores p.1.id) ∧
    (∀ i j : Fin (rankedTeams teams scores categoryFilter).length,
      ((rankedTeams teams scores categoryFilter).get i).2 <
        ((rankedTeams teams scores categoryFilter).get j).2 →
      (j : Nat) < (i : Nat)) ∧
    (∀ v : Int,
      (rankedTeams teams scores categoryFilter).filter (fun p => p.2 == v) =
        ((teams.filter fun t =>
            categoryFilter == "all" || t.category == categoryFilter).map
          fun t => (t, teamTotal scores t.id)).filter fun p => p.2 == v) ∧
    (∀ i : Nat, ∀ hi : i < (exportResultRows teams scores).length,
      ((exportResultRows teams scores).get ⟨i, hi⟩).1 = i + 1) := by
  have hmapeq : ((teams.filter fun t =>
      categoryFilter == "all" || t.category == categoryFilter).map
        fun t => (t, mapGetD (teamScoresMap scores) t.id)) =
      ((teams.filter fun t =>
        categoryFilter == "all" || t.category == categoryFilter).map
          fun t => (t, teamTotal scores t.id)) :=
    List.map_congr_left fun t _ => by rw [mapGetD_teamScoresMap]
  refine ⟨?_, ?_, ?_, ?_⟩
  · intro p hp
    unfold rankedTeams at hp
    rw [List.mem_insertionSort] at hp
    obtain ⟨t, _, ht⟩ := List.mem_map.mp hp
    rw [← ht]
    exact mapGetD_teamScoresMap scores t.id
  · intro i j hlt
    rcases lt_trichotomy (i : Nat) (j : Nat) with h | h | h
    · have hs : (rankedTeams teams scores categoryFilter).Sorted rankLE :=
        List.sorted_insertionSort rankLE _
      have := hs.rel_get_of_lt (show i < j from Fin.lt_def.mpr h)
      exact absurd hlt (not_lt.mpr this)
    · exfalso
      have hij : i = j := Fin.ext h
      rw [hij] at hlt
      exact lt_irrefl _ hlt
    · exact h
  · intro v
    unfold rankedTeams
    rw [insertionSort_filter_total, hmapeq]
  · intro i hi
    unfold exportResultRows
    simp [List.get_eq_getElem]

/-- Sample teams for the ranking witness (totals 50, 80, 80). -/
def teamT1 : Team := ⟨1, 1, "T1", "HighSchool"⟩

/-- Second sample team. -/
def teamT2 : Team := ⟨2, 1, "T2", "HighSchool"⟩

/-- Third sample team. -/
def teamT3 : Team := ⟨3, 1, "T3", "HighSchool"⟩

/-- Scores giving team 1 total 50 and teams 2 and 3 total 80 each. -/
def scores3 : List Score :=
  [⟨601, 101, 1, 10, 1, [("A", 50)]⟩,
   ⟨602, 102, 2, 10, 1, [("A", 80)]⟩,
   ⟨603, 103, 3, 10, 2, [("A", 80)]⟩]

/-- Witness for C5: with totals 50/80/80, the 50-point team sits last
(position 2 below position 0). -/
theorem rankedTeams_spec_witness :
    ((rankedTeams [teamT1, teamT2, teamT3] scores3 "all").get ⟨2, by decide⟩).2 <
      ((rankedTeams [teamT1, teamT2, teamT3] scores3 "all").get ⟨0, by decide⟩).2 ∧
    (0 : Nat) < 2 := by
  refine ⟨by decide, ?_⟩
  exact (rankedTeams_spec [teamT1, teamT2, teamT3] scores3 "all").2.1
    ⟨2, by decide⟩ ⟨0, by decide⟩ (by decide)

/-! ## Station winners (`stationWinners` in the results page) -/

/-- `scores.filter(s => s.stationId === station.id)`. -/
def stationScoresFor (station : Station) (scores : List Score) : List Score :=
  scores.filter fun s => s.stationId == station.id

/-- The per-station `teamTotals` map: the same per-team accumulation as
`teamScores`, over the station's scores only. -/
def stationTeamTotals (station : Station) (scores : List Score) :
    List (Nat × Int) :=
  teamScoresMap (stationScoresFor station scores)

/-- The `bestTeamId`/`bestScore` fold: start from `(0, 0)` and take an
entry whenever its value strictly exceeds the best so far. -/
def bestEntry (totals : List (Nat × Int)) : Nat × Int :=
  totals.foldl (fun best e => if best.2 < e.2 then e else best) (0, 0)

/-- A station's winner entry: the team found by `bestTeamId` and the best
per-station total. -/
def stationWinner (station : Station) (teams : List Team)
    (scores : List Score) : Option Team × Int :=
  ((teams.find? fun t =>
      t.id == (bestEntry (stationTeamTotals station scores)).1),
    (bestEntry (stationTeamTotals station scores)).2)

/-- A team's total for one station, as the spec states it. -/
def stationTotal (station : Station) (scores : List Score) (teamId : Nat) :
    Int :=
  teamTotal (stationScoresFor station scores) teamId

/-- Sample score for `stationS` whose only criterion value is zero. -/
def scoreZero : Score := ⟨700, 100, 20, 10, 1, [("Speed", 0)]⟩

/-- C6 counterexample: the station has a recorded score and the scored
team's per-station total (0) is strictly highest, yet the computed winner
is `none` — the winner requires a strictly positive best total, not just
the existence of scores. -/
theorem stationWinner_zero_total :
    stationScoresFor stationS [scoreZero] ≠ [] ∧
    teamT ∈ [teamT] ∧
    (∀ t' ∈ [teamT], t' ≠ teamT →
      stationTotal stationS [scoreZero] t'.id <
        stationTotal stationS [scoreZero] teamT.id) ∧
    (stationWinner stationS [teamT] [scoreZero]).1 = none := by
  decide

/-- Keys of the per-team accumulation map: adding under key `k` keeps the
other keys and appends `k` when absent. -/
theorem mapAdd_keys (m : List (Nat × Int)) (k : Nat) (v : Int) :
    (mapAdd m k v).map Prod.fst =
      (if m.any fun e => e.1 == k then m.map Prod.fst
       else m.map Prod.fst ++ [k]) := by
  induction m with
  | nil => simp [mapAdd]
  | cons a rest ih =>
    by_cases h : a.1 == k
    · simp [mapAdd, h]
    · simp only [mapAdd, h, Bool.false_eq_true, if_false, List.map_cons,
        List.any_cons, Bool.false_or, ih]
      by_cases h2 : rest.any fun e => e.1 == k <;> simp [h2]

/-- A key absent from the map looks up to the default 0. -/
theorem mapGetD_eq_zero_of_not_mem (m : List (Nat × Int)) (k : Nat)
    (h : k ∉ m.map Prod.fst) : mapGetD m k = 0 := by
  induction m with
  | nil => rfl
  | cons a rest ih =>
    simp only [List.map_cons, List.mem_cons, not_or] at h
    have : ¬(a.1 == k) = true := by
      simp only [beq_iff_eq]
      exact fun he => h.1 he.symm
    simp [mapGetD, this, ih h.2]

/-- The accumulation map's keys are never duplicated. -/
theorem teamScoresMap_go_nodup (scores : List Score) (m : List (Nat × Int))
    (hm : (m.map Prod.fst).Nodup) :
    (((scores.foldl (fun m s => mapAdd m s.teamId (scoreTotal s)) m)).map
      Prod.fst).Nodup := by
  induction scores generalizing m with
  | nil => exact hm
  | cons s ss ih =>
    rw [List.foldl_cons]
    refine ih _ ?_
    rw [mapAdd_keys]
    by_cases h : m.any fun e => e.1 == s.teamId
    · simpa [h] using hm
    · simp only [h, Bool.false_eq_true, if_false]
      have hnot : s.teamId ∉ m.map Prod.fst := by
        intro hmem
        obtain ⟨e, he, hk⟩ := List.mem_map.mp hmem
        rw [List.any_eq_true] at h
        exact absurd ⟨e, he, by simp [hk]⟩ h
      rw [List.nodup_append]
      exact ⟨hm, List.nodup_singleton _,
        fun a ha hb => hnot (by rwa [List.mem_singleton.mp hb] at ha)⟩

/-- Every key of the accumulation map is the team id of one of the folded
scores (or a key of the initial map). -/
theorem teamScoresMap_go_keys (scores : List Score) (m : List (Nat × Int)) :
    ∀ k ∈ ((scores.foldl (fun m s => mapAdd m s.teamId (scoreTotal s)) m)).map
      Prod.fst, k ∈ m.map Prod.fst ∨ k ∈ scores.map Score.teamId := by
  induction scores generalizing m with
  | nil => exact fun k hk => Or.inl hk
  | cons s ss ih =>
    intro k hk
    rw [List.foldl_cons] at hk
    rcases ih (mapAdd m s.teamId (scoreTotal s)) k hk with h | h
    · rw [mapAdd_keys] at h
      by_cases hc : m.any fun e => e.1 == s.teamId
      · exact Or.inl (by simpa [hc] using h)
      · simp only [hc, Bool.false_eq_true, if_false, List.mem_append,
          List.mem_singleton] at h
        rcases h with h | h
        · exact Or.inl h
        · exact Or.inr (by simp [h])
    · exact Or.inr (List.mem_cons_of_mem _ h)

/-- Conversely, every folded score's team id ends up a key of the map. -/
theorem teamScoresMap_go_covers (scores : List Score) (m : List (Nat × Int)) :
    ∀ k, (k ∈ m.map Prod.fst ∨ k ∈ scores.map Score.teamId) →
      k ∈ ((scores.foldl (fun m s => mapAdd m s.teamId (scoreTotal s)) m)).map
        Prod.fst := by
  induction scores generalizing m with
  | nil => exact fun k hk => hk.resolve_right (by simp)
  | cons s ss ih =>
    intro k hk
    rw [List.foldl_cons]
    refine ih _ k ?_
    have hstep : ∀ k', (k' ∈ m.map Prod.fst ∨ k' = s.teamId) →
        k' ∈ (mapAdd m s.teamId (scoreTotal s)).map Prod.fst := by
      intro k' hk'
      rw [mapAdd_keys]
      by_cases hc : m.any fun e => e.1 == s.teamId
      · have hc' := hc
        rw [List.any_eq_true] at hc'
        obtain ⟨e, he, hek⟩ := hc'
        simp only [beq_iff_eq] at hek
        rcases hk' with h | h
        · simpa [hc] using h
        · have hmem : k' ∈ m.map Prod.fst := by
            rw [h, ← hek]
            exact List.mem_map_of_mem Prod.fst he
          simpa [hc] using hmem
      · rcases hk' with h | h <;> simp [hc, h]
    rcases hk with h | h
    · exact Or.inl (hstep k (Or.inl h))
    · rcases List.mem_cons.mp h with h | h
      · exact Or.inl (hstep k (Or.inr (by simpa using h)))
      · exact Or.inr h

/-- With no duplicate keys, every entry's value is its lookup. -/
theorem mapGetD_of_mem (m : List (Nat × Int)) (hm : (m.map Prod.fst).Nodup)
    (e : Nat × Int) (he : e ∈ m) : mapGetD m e.1 = e.2 := by
  induction m with
  | nil => cases he
  | cons a rest ih =>
    have hm2 : (a.1 :: rest.map Prod.fst).Nodup := by simpa using hm
    rcases List.mem_cons.mp he with h | h
    · subst h
      simp [mapGetD]
    · have hne : ¬(a.1 == e.1) = true := by
        simp only [beq_iff_eq]
        intro hEq
        have hmem : e.1 ∈ rest.map Prod.fst := List.mem_map_of_mem Prod.fst h
        exact (List.nodup_cons.mp hm2).1 (hEq ▸ hmem)
      simp [mapGetD, hne, ih (List.nodup_cons.mp hm2).2 h]

/-- The winner fold never decreases the best value. -/
theorem bestFold_le (l : List (Nat × Int)) (init : Nat × Int) :
    init.2 ≤ (l.foldl (fun best e => if best.2 < e.2 then e else best) init).2 := by
  induction l generalizing init with
  | nil => exact le_refl _
  | cons a l ih =>
    rw [List.foldl_cons]
    refine le_trans ?_ (ih (if init.2 < a.2 then a else init))
    by_cases h : init.2 < a.2
    · rw [if_pos h]
      exact le_of_lt h
    · rw [if_neg h]

/-- The winner fold returns its initial value or an element. -/
theorem bestFold_mem_or (l : List (Nat × Int)) (init : Nat × Int) :
    l.foldl (fun best e => if best.2 < e.2 then e else best) init = init ∨
      l.foldl (fun best e => if best.2 < e.2 then e else best) init ∈ l := by
  induction l generalizing init with
  | nil => exact Or.inl rfl
  | cons a l ih =>
    rw [List.foldl_cons]
    by_cases h : init.2 < a.2
    · rw [if_pos h]
      rcases ih a with h2 | h2
      · refine Or.inr ?_
        rw [h2]
        exact List.mem_cons_self a l
      · exact Or.inr (List.mem_cons_of_mem a h2)
    · rw [if_neg h]
      rcases ih init with h2 | h2
      · exact Or.inl h2
      · exact Or.inr (List.mem_cons_of_mem a h2)

/-- The winner fold dominates every element's value. -/
theorem bestFold_ge_all (l : List (Nat × Int)) (init : Nat × Int) :
    ∀ e ∈ l, e.2 ≤ (l.foldl (fun best e => if best.2 < e.2 then e else best) init).2 := by
  induction l generalizing init with
  | nil => intro e he; cases he
  | cons a l ih =>
    intro e he
    rw [List.foldl_cons]
    rcases List.mem_cons.mp he with h | h
    · subst h
      refine le_trans ?_ (bestFold_le l _)
      by_cases hc : init.2 < e.2
      · rw [if_pos hc]
      · rw [if_neg hc]
        exact le_of_not_lt hc
    · exact ih _ e h

/-- With only non-positive totals the fold keeps the `(0, 0)` sentinel. -/
theorem bestEntry_of_nonpos (l : List (Nat × Int)) (h : ∀ e ∈ l, e.2 ≤ 0) :
    bestEntry l = (0, 0) := by
  unfold bestEntry
  induction l with
  | nil => rfl
  | cons a l ih =>
    rw [List.foldl_cons]
    have hc : ¬(((0 : Nat), (0 : Int)).2 < a.2) :=
      not_lt.mpr (h a (List.mem_cons_self a l))
    rw [if_neg hc]
    exact ih fun e he => h e (List.mem_cons_of_mem a he)

/-- The fold finds the entry with a strictly positive, strictly greatest
value. -/
theorem bestEntry_eq (l : List (Nat × Int)) (hnd : (l.map Prod.fst).Nodup)
    (k₀ : Nat) (v₀ : Int) (hmem : (k₀, v₀) ∈ l) (hpos : 0 < v₀)
    (hmax : ∀ e ∈ l, e.1 ≠ k₀ → e.2 < v₀) :
    bestEntry l = (k₀, v₀) := by
  have h1 : v₀ ≤ (bestEntry l).2 := bestFold_ge_all l (0, 0) (k₀, v₀) hmem
  have h2 : bestEntry l ∈ l := by
    rcases bestFold_mem_or l (0, 0) with h | h
    · exfalso
      unfold bestEntry at h1
      rw [h] at h1
      simp only at h1
      omega
    · exact h
  have h3 : (bestEntry l).1 = k₀ := by
    by_contra hne
    have := hmax _ h2 hne
    omega
  have h4 : (bestEntry l).2 = v₀ := by
    have ha := mapGetD_of_mem l hnd _ h2
    have hb := mapGetD_of_mem l hnd (k₀, v₀) hmem
    rw [h3] at ha
    simp only at hb
    omega
  exact Prod.ext h3 h4

/-- With distinct ids, `find?` by a member's id returns that member. -/
theorem team_find?_eq_some (teams : List Team) (t : Team) (ht : t ∈ teams)
    (hnd : (teams.map fun x => x.id).Nodup) :
    (teams.find? fun x => x.id == t.id) = some t := by
  induction teams with
  | nil => cases ht
  | cons a rest ih =>
    have hnd2 : (a.id :: rest.map fun x => x.id).Nodup := by simpa using hnd
    rcases List.mem_cons.mp ht with h | h
    · subst h
      simp [List.find?]
    · have hmem : t.id ∈ rest.map fun x => x.id :=
        List.mem_map_of_mem (fun x => x.id) h
      have hne : ¬(a.id == t.id) = true := by
        simp only [beq_iff_eq]
        intro hEq
        exact (List.nodup_cons.mp hnd2).1 (hEq ▸ hmem)
      rw [List.find?_cons_of_neg rest (p := fun x => x.id == t.id) hne]
      exact ih h (List.nodup_cons.mp hnd2).2

/-- C6 amended: a station with no scores has no winner; a station all of
whose recorded per-team totals are non-positive also has no winner; and
when one team's per-station total is strictly positive and strictly above
every other team's, that team is the winner with that total (assuming
ids are non-zero and unique and every station score belongs to a listed
team). -/
theorem stationWinner_spec (station : Station) (teams : List Team)
    (scores : List Score) (hid0 : ∀ t ∈ teams, t.id ≠ 0) :
    (stationScoresFor station scores = [] →
      (stationWinner station teams scores).1 = none) ∧
    ((∀ e ∈ stationTeamTotals station scores, e.2 ≤ 0) →
      (stationWinner station teams scores).1 = none) ∧
    (∀ t ∈ teams,
      (teams.map fun x => x.id).Nodup →
      (∀ s ∈ stationScoresFor station scores,
        s.teamId ∈ teams.map fun x => x.id) →
      0 < stationTotal station scores t.id →
      (∀ t' ∈ teams, t'.id ≠ t.id →
        stationTotal station scores t'.id < stationTotal station scores t.id) →
      (stationWinner station teams scores).1 = some t ∧
      (stationWinner station teams scores).2 =
        stationTotal station scores t.id) := by
  have hfindnone : bestEntry (stationTeamTotals station scores) = (0, 0) →
      (stationWinner station teams scores).1 = none := by
    intro hb
    unfold stationWinner
    simp only [hb]
    exact List.find?_eq_none.mpr fun t ht => by simpa using hid0 t ht
  refine ⟨?_, ?_, ?_⟩
  · intro h
    refine hfindnone ?_
    unfold stationTeamTotals teamScoresMap
    rw [h]
    rfl
  · intro h
    exact hfindnone (bestEntry_of_nonpos _ h)
  · intro t ht hnd hcover hpos hmax
    have hlook : ∀ k, mapGetD (stationTeamTotals station scores) k =
        stationTotal station scores k := fun k =>
      mapGetD_teamScoresMap (stationScoresFor station scores) k
    have hndk : ((stationTeamTotals station scores).map Prod.fst).Nodup :=
      teamScoresMap_go_nodup (stationScoresFor station scores) [] (by simp)
    have hkey : t.id ∈ (stationTeamTotals station scores).map Prod.fst := by
      by_contra hnk
      have h0 := mapGetD_eq_zero_of_not_mem _ _ hnk
      rw [hlook] at h0
      omega
    have hment : (t.id, stationTotal station scores t.id) ∈
        stationTeamTotals station scores := by
      obtain ⟨e, he, hek⟩ := List.mem_map.mp hkey
      have hv := mapGetD_of_mem _ hndk e he
      rw [hek, hlook] at hv
      have heq : (t.id, stationTotal station scores t.id) = e :=
        Prod.ext hek.symm hv
      rw [heq]
      exact he
    have hmax' : ∀ e ∈ stationTeamTotals station scores, e.1 ≠ t.id →
        e.2 < stationTotal station scores t.id := by
      intro e he hne
      have hv := mapGetD_of_mem _ hndk e he
      rw [hlook] at hv
      have hk1 : e.1 ∈ (stationTeamTotals station scores).map Prod.fst :=
        List.mem_map_of_mem Prod.fst he
      have hk2 := teamScoresMap_go_keys (stationScoresFor station scores) []
        e.1 hk1
      have hk3 : e.1 ∈ (stationScoresFor station scores).map Score.teamId :=
        hk2.resolve_left (by simp)
      obtain ⟨s, hs, hsid⟩ := List.mem_map.mp hk3
      have hk4 : s.teamId ∈ teams.map fun x => x.id := hcover s hs
      obtain ⟨t', ht', htid⟩ := List.mem_map.mp hk4
      have hlt := hmax t' ht' (by rw [htid, hsid]; exact hne)
      rw [htid, hsid] at hlt
      omega
    have hbest := bestEntry_eq (stationTeamTotals station scores) hndk t.id
      (stationTotal station scores t.id) hment hpos hmax'
    constructor
    · unfold stationWinner
      simp only [hbest]
      exact team_find?_eq_some teams t ht hnd
    · unfold stationWinner
      simp only [hbest]

/-- Witness for the amended C6: team 20's station total 7 is strictly
positive and strictly highest, so it wins station 10 with total 7. -/
theorem stationWinner_spec_witness :
    (∀ t ∈ [teamT], t.id ≠ 0) ∧
    (stationWinner stationS [teamT] [scoreByJ1]).1 = some teamT ∧
    (stationWinner stationS [teamT] [scoreByJ1]).2 =
      stationTotal stationS [scoreByJ1] teamT.id := by
  refine ⟨by decide, ?_, ?_⟩
  · exact ((stationWinner_spec stationS [teamT] [scoreByJ1] (by decide)).2.2
      teamT (by decide) (by decide) (by decide) (by decide) (by decide)).1
  · exact ((stationWinner_spec stationS [teamT] [scoreByJ1] (by decide)).2.2
      teamT (by decide) (by decide) (by decide) (by decide) (by decide)).2

/-! ## Route handlers (server/routes.ts)

Handlers are state-transition functions: the authenticated caller is
`Option User` (`none` for an anonymous request), the stored entities are
lists, and each handler returns the HTTP status code with the new stored
state. -/

/-- `req.isAuthenticated() && req.user?.role === "judge"` — the only
guard on most mutation routes. -/
def isJudgeCaller (caller : Option User) : Bool :=
  match caller with
  | some u => u.role == "judge"
  | none => false

/-- `DatabaseStorage.createScore`: inserts the score row and also
updates the referenced slot's stored status label to "complete". -/
def createScore (slots : List ScheduleSlot) (scores : List Score)
    (body : Score) : List ScheduleSlot × List Score :=
  (slots.map fun s =>
      if s.id == body.slotId then { s with status := "complete" } else s,
    scores ++ [body])

/-- POST /api/scores: an authenticated judge must be listed on the
referenced slot (404-less: a missing slot is also a 403); any other
caller — manager, admin, or anonymous — goes straight to `createScore`.
The result is the HTTP status with the new slots and scores state. -/
def postScore (caller : Option User) (slots : List ScheduleSlot)
    (scores : List Score) (body : Score) :
    Nat × List ScheduleSlot × List Score :=
  match caller with
  | some u =>
    if u.role == "judge" then
      match slots.find? fun s => s.id == body.slotId with
      | some slot =>
        if slot.judgeIds.contains u.id then (201, createScore slots scores body)
        else (403, slots, scores)
      | none => (403, slots, scores)
    else (201, createScore slots scores body)
  | none => (201, createScore slots scores body)

/-- C8: for a judge caller over slots with distinct ids, the score is
created iff the referenced slot exists and lists the caller (the
creation also marks the referenced slot's stored label "complete");
otherwise the request is rejected with 403 and the state is unchanged. -/
theorem postScore_judge_spec (u : User) (slots : List ScheduleSlot)
    (scores : List Score) (body : Score) (hrole : u.role = "judge")
    (hnd : (slots.map fun s => s.id).Nodup) :
    ((∃ slot ∈ slots, slot.id = body.slotId ∧ u.id ∈ slot.judgeIds) →
      postScore (some u) slots scores body =
        (201,
          slots.map fun s =>
            if s.id == body.slotId then { s with status := "complete" } else s,
          scores ++ [body])) ∧
    ((¬∃ slot ∈ slots, slot.id = body.slotId ∧ u.id ∈ slot.judgeIds) →
      postScore (some u) slots scores body = (403, slots, scores)) := by
  have hb : (u.role == "judge") = true := by simp [hrole]
  simp only [postScore, createScore, hb, if_true]
  cases hf : slots.find? fun s => s.id == body.slotId with
  | none =>
    constructor
    · intro hex
      exfalso
      obtain ⟨slot, hmem, hid, _⟩ := hex
      have := List.find?_eq_none.mp hf slot hmem
      simp [hid] at this
    · intro _
      rfl
  | some slot =>
    dsimp only
    have hmem : slot ∈ slots := List.mem_of_find?_eq_some hf
    have hid : slot.id = body.slotId := by simpa using List.find?_some hf
    by_cases hc : slot.judgeIds.contains u.id
    · constructor
      · intro _
        rw [if_pos hc]
      · intro hnex
        exfalso
        refine hnex ⟨slot, hmem, hid, ?_⟩
        simpa [List.contains] using hc
    · constructor
      · intro hex
        exfalso
        obtain ⟨slot', hmem', hid', hjud'⟩ := hex
        have heq : slot' = slot :=
          List.inj_on_of_nodup_map hnd hmem' hmem (by rw [hid', hid])
        rw [heq] at hjud'
        exact hc (by simpa [List.contains] using hjud')
      · intro _
        rw [if_neg hc]

/-- Sample judge user 1 (listed on `slotJ12`). -/
def uJ1 : User := ⟨1, "judge", "J1"⟩

/-- Sample score submission body for `slotJ12` by judge 1. -/
def scoreBody : Score := ⟨900, 100, 20, 10, 1, [("Speed", 9)]⟩

/-- Witness for C8: judge 1 is listed on slot 100, so the submission is
stored and the slot's stored label set to "complete". -/
theorem postScore_judge_spec_witness :
    uJ1.role = "judge" ∧
    postScore (some uJ1) [slotJ12] [] scoreBody =
      (201, [{ slotJ12 with status := "complete" }], [scoreBody]) := by
  refine ⟨rfl, ?_⟩
  have h := (postScore_judge_spec uJ1 [slotJ12] [] scoreBody rfl (by decide)).1
    ⟨slotJ12, by decide, by decide, by decide⟩
  rw [h]
  decide

/-! ## Score-sheet validation (`ScoreSheetDialog.onSubmit`) -/

/-- `Number(values.scores[c.name] || 0)`: the submitted value for a
criterion, 0 when absent. -/
def lookupD (values : List (String × Int)) (name : String) : Int :=
  match values.find? fun e => e.1 == name with
  | some e => e.2
  | none => 0

/-- The criteria flagged with a `Max N` field error by `onSubmit`'s
manual validation (`val > c.maxPoints`). -/
def scoreErrors (criteria : List Criterion) (values : List (String × Int)) :
    List String :=
  (criteria.filter fun c => decide (c.maxPoints < lookupD values c.name)).map
    Criterion.name

/-- The `scoreData` record built from the rubric and the form values. -/
def buildScoreData (criteria : List Criterion) (values : List (String × Int)) :
    List (String × Int) :=
  criteria.map fun c => (c.name, lookupD values c.name)

/-- `onSubmit`: when some criterion value exceeds its max, set the
per-criterion errors and do not submit; otherwise submit `scoreData`. -/
def onSubmit (criteria : List Criterion) (values : List (String × Int)) :
    Option (List (String × Int)) :=
  if scoreErrors criteria values = [] then some (buildScoreData criteria values)
  else none

/-- Sample rubric criterion with max 10. -/
def speedCrit : Criterion := ⟨"Speed", 10⟩

/-- Sample manager user. -/
def uManagerA : User := ⟨5, "manager", "MA"⟩

/-- Sample stored score with a negative criterion value. -/
def scoreNeg : Score := ⟨800, 100, 20, 10, 5, [("Speed", -5)]⟩

/-- Sample stored score with a criterion value over the max. -/
def scoreEleven : Score := ⟨801, 100, 20, 10, 5, [("Speed", 11)]⟩

/-- C7 counterexample: the dialog accepts a negative value (-5) and
submits it, and the score route stores a value (11) above the rubric max
(10) for a non-judge caller — so stored Scores are not confined to
[0, maxPoints]. -/
theorem scoreValidation_unsound :
    onSubmit [speedCrit] [("Speed", -5)] = some [("Speed", -5)] ∧
    ((-5 : Int) < 0 ∧ speedCrit.maxPoints = 10) ∧
    postScore (some uManagerA) [slotJ12] [] scoreNeg =
      (201, [{ slotJ12 with status := "complete" }], [scoreNeg]) ∧
    postScore (some uManagerA) [slotJ12] [] scoreEleven =
      (201, [{ slotJ12 with status := "complete" }], [scoreEleven]) ∧
    lookupD scoreEleven.scores "Speed" = 11 := by
  decide

/-- C7 amended: the dialog rejects any value strictly above its
criterion's max with an error naming that criterion and does not submit;
with every value at most its max (equality included) it submits; data
submitted through the dialog is bounded above by the rubric maxima —
there is no lower bound, and the route stores submissions unchecked. -/
theorem onSubmit_spec (criteria : List Criterion)
    (values : List (String × Int)) :
    (∀ c ∈ criteria, c.maxPoints < lookupD values c.name →
      onSubmit criteria values = none ∧ c.name ∈ scoreErrors criteria values) ∧
    ((∀ c ∈ criteria, lookupD values c.name ≤ c.maxPoints) →
      onSubmit criteria values = some (buildScoreData criteria values)) ∧
    (∀ d, onSubmit criteria values = some d →
      ∀ e ∈ d, ∃ c ∈ criteria, e.1 = c.name ∧ e.2 ≤ c.maxPoints) := by
  refine ⟨?_, ?_, ?_⟩
  · intro c hc hover
    have hmem : c.name ∈ scoreErrors criteria values :=
      List.mem_map.mpr ⟨c, List.mem_filter.mpr ⟨hc, by simpa using hover⟩, rfl⟩
    refine ⟨?_, hmem⟩
    unfold onSubmit
    rw [if_neg (List.ne_nil_of_mem hmem)]
  · intro hall
    unfold onSubmit
    rw [if_pos]
    unfold scoreErrors
    rw [List.filter_eq_nil_iff.mpr fun c hc => by simpa using hall c hc]
    rfl
  · intro d hd e he
    unfold onSubmit at hd
    by_cases hok : scoreErrors criteria values = []
    · rw [if_pos hok] at hd
      have hd' : d = buildScoreData criteria values := by
        injection hd with h
        exact h.symm
      rw [hd'] at he
      obtain ⟨c, hc, hce⟩ := List.mem_map.mp he
      refine ⟨c, hc, by rw [← hce], ?_⟩
      rw [← hce]
      by_contra hover
      have hover' : c.maxPoints < lookupD values c.name := by
        simpa using lt_of_not_le hover
      have : c.name ∈ scoreErrors criteria values :=
        List.mem_map.mpr
          ⟨c, List.mem_filter.mpr ⟨hc, by simpa using hover'⟩, rfl⟩
      rw [hok] at this
      cases this
    · rw [if_neg hok] at hd
      cases hd

/-- Witness for the amended C7: a value equal to the max (10) passes
validation and is submitted. -/
theorem onSubmit_spec_witness :
    (∀ c ∈ [speedCrit], lookupD [("Speed", 10)] c.name ≤ c.maxPoints) ∧
    onSubmit [speedCrit] [("Speed", 10)] =
      some (buildScoreData [speedCrit] [("Speed", 10)]) := by
  refine ⟨by decide, ?_⟩
  exact (onSubmit_spec [speedCrit] [("Speed", 10)]).2.1 (by decide)

/-! ## Event routes (list, create, update, delete) and slot creation -/

/-- GET /api/events: anonymous callers get 401; judges 403; admins all
events; managers the events they manage; unknown roles an empty list. -/
def listEvents (caller : Option User) (events : List Event) :
    Nat × List Event :=
  match caller with
  | none => (401, [])
  | some u =>
    if u.role == "judge" then (403, [])
    else if u.role == "admin" then (200, events)
    else if u.role == "manager" then
      (200, events.filter fun e => e.managerId == u.id)
    else (200, [])

/-- PUT /api/events/:id: only judge callers are rejected; everyone else
(including anonymous callers) reaches `DatabaseStorage.updateEvent`,
which applies the submitted field changes to the stored event with that
id and returns nothing when absent (the route then answers 404). -/
def updateEventRoute (caller : Option User) (events : List Event) (id : Nat)
    (upd : Event → Event) : Nat × List Event :=
  if isJudgeCaller caller then (403, events)
  else
    match events.find? fun e => e.id == id with
    | none => (404, events)
    | some _ => (200, events.map fun e => if e.id == id then upd e else e)

/-- DELETE /api/events/:id: only judge callers are rejected;
`DatabaseStorage.deleteEvent` removes the event with that id and the
route answers 204 unconditionally. -/
def deleteEventRoute (caller : Option User) (events : List Event) (id : Nat) :
    Nat × List Event :=
  if isJudgeCaller caller then (403, events)
  else (204, events.filter fun e => !(e.id == id))

/-- POST /api/events: only judge callers are rejected;
`DatabaseStorage.createEvent` inserts the event for anyone else. -/
def postEvent (caller : Option User) (events : List Event)
    (newEvent : Event) : Nat × List Event :=
  if isJudgeCaller caller then (403, events)
  else (201, events ++ [newEvent])

/-- POST /api/slots: only judge callers are rejected;
`DatabaseStorage.createSlot` inserts the slot for anyone else. -/
def postSlot (caller : Option User) (slots : List ScheduleSlot)
    (newSlot : ScheduleSlot) : Nat × List ScheduleSlot :=
  if isJudgeCaller caller then (403, slots)
  else (201, slots ++ [newSlot])

/-- Sample event managed by a different manager (id 6). -/
def eventOfB : Event := ⟨50, "E", 6, []⟩

/-- C9 counterexample: a manager's update of an event with a different
managerId is applied (200 and changed state), not rejected. -/
theorem managerUpdate_unchecked :
    uManagerA.role = "manager" ∧
    eventOfB.managerId ≠ uManagerA.id ∧
    updateEventRoute (some uManagerA) [eventOfB] 50
        (fun e => { e with name := "hijacked" }) =
      (200, [{ eventOfB with name := "hijacked" }]) ∧
    ({ eventOfB with name := "hijacked" } : Event) ≠ eventOfB := by
  decide

/-- C9 amended: the events list is scoped exactly to the manager's own
events (an empty list, not an error, when none match), but update and
delete only reject judge callers: an existing event is updated, and any
event deleted, regardless of its managerId. -/
theorem eventsRoute_manager_spec (u : User) (events : List Event) (id : Nat)
    (upd : Event → Event) (e : Event) (hrole : u.role = "manager") :
    listEvents (some u) events =
      (200, events.filter fun x => x.managerId == u.id) ∧
    ((events.find? fun x => x.id == id) = some e →
      updateEventRoute (some u) events id upd =
        (200, events.map fun x => if x.id == id then upd x else x)) ∧
    deleteEventRoute (some u) events id =
      (204, events.filter fun x => !(x.id == id)) := by
  have hj : (u.role == "judge") = false := by simp [hrole]
  have ha : (u.role == "admin") = false := by simp [hrole]
  have hm : (u.role == "manager") = true := by simp [hrole]
  have hic : isJudgeCaller (some u) = false := by simp [isJudgeCaller, hj]
  refine ⟨?_, ?_, ?_⟩
  · simp only [listEvents, hj, ha, hm, Bool.false_eq_true, if_false, if_true]
  · intro hfind
    simp only [updateEventRoute, hic, Bool.false_eq_true, if_false, hfind]
  · simp only [deleteEventRoute, hic, Bool.false_eq_true, if_false]

/-- Witness for the amended C9: the manager updates the non-owned event
and it is applied. -/
theorem eventsRoute_manager_spec_witness :
    uManagerA.role = "manager" ∧
    ([eventOfB].find? fun x => x.id == 50) = some eventOfB ∧
    updateEventRoute (some uManagerA) [eventOfB] 50 (fun x => x) =
      (200, [eventOfB].map fun x => if x.id == 50 then x else x) := by
  refine ⟨rfl, by decide, ?_⟩
  exact (eventsRoute_manager_spec uManagerA [eventOfB] 50 (fun x => x)
    eventOfB rfl).2.1 (by decide)

/-- Sample event for anonymous-creation checks. -/
def anonEvent : Event := ⟨60, "anon", 7, []⟩

/-- Sample slot for anonymous-creation checks. -/
def anonSlot : ScheduleSlot := ⟨200, 1, 10, 20, 0, 60, [], "pending"⟩

/-- C10 counterexample: unauthenticated requests create an event, a slot
and a score — accepted with 201 and the state changed. -/
theorem anonymousWrite_allowed :
    postEvent none [] anonEvent = (201, [anonEvent]) ∧
    postSlot none [] anonSlot = (201, [anonSlot]) ∧
    postScore none [slotJ12] [] scoreBody =
      (201, [{ slotJ12 with status := "complete" }], [scoreBody]) := by
  decide

/-- C10 amended: the events list rejects anonymous callers with 401, but
the create handlers only reject authenticated judge callers: anonymous
creates of events, slots and scores are accepted and performed. -/
theorem authGuard_spec (events : List Event) (slots : List ScheduleSlot)
    (scores : List Score) (e : Event) (s : ScheduleSlot) (b : Score)
    (u : User) (hj : u.role = "judge") :
    listEvents none events = (401, []) ∧
    postEvent none events e = (201, events ++ [e]) ∧
    postSlot none slots s = (201, slots ++ [s]) ∧
    postScore none slots scores b =
      (201,
        slots.map fun s =>
          if s.id == b.slotId then { s with status := "complete" } else s,
        scores ++ [b]) ∧
    postEvent (some u) events e = (403, events) ∧
    postSlot (some u) slots s = (403, slots) := by
  have hic : isJudgeCaller (some u) = true := by simp [isJudgeCaller, hj]
  refine ⟨rfl, rfl, rfl, rfl, ?_, ?_⟩
  · simp only [postEvent, hic, if_true]
  · simp only [postSlot, hic, if_true]

/-- Witness for the amended C10 at a judge caller. -/
theorem authGuard_spec_witness :
    uJ1.role = "judge" ∧ postEvent (some uJ1) [] anonEvent = (403, []) := by
  refine ⟨rfl, ?_⟩
  exact (authGuard_spec [] [] [] anonEvent anonSlot scoreBody uJ1 rfl).2.2.2.2.1

end Orbit
